import Mathlib

/-!
Verification of the MyAssetHub scan/catalog pipeline
(`app/core/db_manager.py` and `app/core/watcher.py`) against its
natural-language specification.

Conventions of the shallow embedding:
* SQLite REAL `mtime` values are modelled as `Int` (the claims only compare
  modification times, never do float arithmetic).
* Paths are POSIX-style strings; `os.path.abspath` is modelled as the identity
  (all paths fed to the model are assumed absolute and normalized, which is
  what the source guarantees before the interesting logic runs).
* Python ASCII case folding (`str.lower`, and SQLite's ASCII-case-insensitive
  `LIKE`) is modelled by `lowerChar`.
* Fallible external calls (`os.stat`, `os.listdir`, progress callbacks,
  image decoding, the batch commit) are modelled with `Except String` /
  `Option` fields of explicit environment records.
-/

/-- ASCII lower-casing of one character, the case folding used both by
Python `str.lower()` on the paths handled here and by SQLite `LIKE`. -/
def lowerChar (c : Char) : Char :=
  if 'A' ≤ c ∧ c ≤ 'Z' then Char.ofNat (c.toNat + 32) else c

/-- ASCII lower-casing of a string, as a character list. -/
def lowerStr (s : String) : List Char :=
  s.data.map lowerChar

/-- Index of the last occurrence of `c` in `cs`, or `-1` if absent
(mirrors Python `str.rfind`). -/
def lastIdxOf (c : Char) (cs : List Char) : Int :=
  (List.range cs.length).foldl
    (fun acc i => if cs.getD i ' ' == c then (i : Int) else acc) (-1)

/-- `os.path.splitext`: split off the last dot-suffix of the final path
component, treating leading dots of the component as part of the stem. -/
def splitext (p : String) : String × String :=
  let cs := p.data
  let sepIdx := lastIdxOf '/' cs
  let dotIdx := lastIdxOf '.' cs
  if sepIdx < dotIdx ∧
      (List.range cs.length).any
        (fun i => decide (sepIdx < (i : Int)) && decide ((i : Int) < dotIdx)
          && (cs.getD i ' ' != '.')) then
    (⟨cs.take dotIdx.toNat⟩, ⟨cs.drop dotIdx.toNat⟩)
  else
    (p, "")

/-- `os.path.basename` for POSIX paths. -/
def basename (p : String) : String :=
  ⟨p.data.drop (lastIdxOf '/' p.data + 1).toNat⟩

/-- `os.path.dirname` for POSIX paths. -/
def dirname (p : String) : String :=
  let cs := p.data
  let i := lastIdxOf '/' cs
  if i < 0 then ""
  else
    let head := cs.take (i.toNat + 1)
    if head.all (· == '/') then ⟨head⟩
    else ⟨(head.reverse.dropWhile (· == '/')).reverse⟩

/-- `os.path.join` for one component (POSIX). -/
def os_join (d b : String) : String :=
  if b.data.head? == some '/' then b
  else if d == "" then b
  else if d.data.getLast? == some '/' then d ++ b
  else d ++ "/" ++ b

/-- `format_file_size`: pick the unit by repeated division by 1024.  The
fractional rendering of the Python original is display-only and elided;
no claim inspects the produced text. -/
def format_file_size_units (n : Nat) : List String → String
  | [] => toString n ++ " PB"
  | u :: us => if n < 1024 then toString n ++ " " ++ u else format_file_size_units (n / 1024) us

def format_file_size (n : Nat) : String :=
  format_file_size_units n ["B", "KB", "MB", "GB", "TB"]

/-! ## SQLite `LIKE` matching

`likeMatch pat s` is SQLite's default `LIKE`: `%` matches any run of
characters, `_` matches exactly one character, everything else compares
ASCII-case-insensitively.  The queries under verification never use an
`ESCAPE` clause, so none is modelled. -/

/-- `likeSuffix f s` tests `f` on every suffix of `s` (including `s` itself
and `[]`); helper giving `likeMatch` a structural recursion. -/
def likeSuffix (f : List Char → Bool) : List Char → Bool
  | [] => f []
  | c :: s => f (c :: s) || likeSuffix f s

/-- SQLite `LIKE` pattern matching (ASCII-case-insensitive, no escape). -/
def likeMatch : List Char → List Char → Bool
  | [], s => s.isEmpty
  | c :: p, s =>
    if c = '%' then likeSuffix (likeMatch p) s
    else if c = '_' then
      match s with
      | [] => false
      | _ :: s' => likeMatch p s'
    else
      match s with
      | [] => false
      | c' :: s' => (lowerChar c == lowerChar c') && likeMatch p s'

/-- Case-insensitive (ASCII) string-prefix test, the separator-bounded
prefix relation the folder queries are specified against. -/
def startsWithCI (pre s : String) : Bool :=
  (pre.data.map lowerChar).isPrefixOf (s.data.map lowerChar)

/-! ## Data model (`db_manager.AssetRecord`, rows, `from_row`) -/

/-- `AssetRecord` dataclass. -/
structure AssetRecord where
  id : Option Int := none
  file_path : String := ""
  file_name : String := ""
  thumb_path : String := ""
  file_size : String := ""
  mtime : Int := 0
  comment : String := ""
  tags : String := ""
deriving Repr, DecidableEq

/-- One SQLite column value as handed to `AssetRecord.from_row`. -/
inductive SqlVal where
  | null
  | intv (n : Int)
  | realv (x : Int)
  | textv (s : String)
deriving Repr, DecidableEq

def SqlVal.toOptInt : SqlVal → Option Int
  | .intv n => some n
  | _ => none

def SqlVal.toText : SqlVal → String
  | .textv s => s
  | _ => ""

def SqlVal.toIntVal : SqlVal → Int
  | .intv n => n
  | .realv x => x
  | _ => 0

/-- `AssetRecord.from_row`: indices 0–5 are always present in the rows the
queries produce; `comment`/`tags` (indices 6, 7) default to `""` when the
row is shorter — exactly the Python `row[6] if len(row) > 6 else ""`. -/
def from_row (row : List SqlVal) : AssetRecord :=
  { id := (row.getD 0 .null).toOptInt
    file_path := (row.getD 1 .null).toText
    file_name := (row.getD 2 .null).toText
    thumb_path := (row.getD 3 .null).toText
    file_size := (row.getD 4 .null).toText
    mtime := (row.getD 5 .null).toIntVal
    comment := if row.length > 6 then (row.getD 6 .null).toText else ""
    tags := if row.length > 7 then (row.getD 7 .null).toText else "" }

/-- The 6-column row shape produced by
`SELECT id, file_path, file_name, thumb_path, file_size, mtime`. -/
def toRow6 (r : AssetRecord) : List SqlVal :=
  [ (match r.id with | some n => .intv n | none => .null),
    .textv r.file_path, .textv r.file_name, .textv r.thumb_path,
    .textv r.file_size, .realv r.mtime ]

/-- The 8-column row shape produced by the folder query's
`SELECT id, file_path, file_name, thumb_path, file_size, mtime, comment, tags`. -/
def toRow8 (r : AssetRecord) : List SqlVal :=
  toRow6 r ++ [.textv r.comment, .textv r.tags]

/-- The `assets` table, in rowid (insertion) order. -/
abbrev Store := List AssetRecord

/-- The row currently stored under a `file_path` (the `UNIQUE` natural key). -/
def find_by_path (store : Store) (p : String) : Option AssetRecord :=
  List.find? (fun r => r.file_path == p) store

/-- Next `AUTOINCREMENT` id. -/
def nextId (store : Store) : Int :=
  (List.foldl (fun m r => max m ((r.id).getD 0)) 0 store) + 1

/-- The `ON CONFLICT(file_path) DO UPDATE` clause of `upsert_asset`:
`file_name`/`thumb_path`/`file_size`/`mtime` are always refreshed, while
`comment`/`tags` take the incoming value only when it is non-empty
(`CASE WHEN excluded.comment != '' THEN excluded.comment ELSE assets.comment END`). -/
def upsertMerge (old incoming : AssetRecord) : AssetRecord :=
  { old with
    file_name := incoming.file_name
    thumb_path := incoming.thumb_path
    file_size := incoming.file_size
    mtime := incoming.mtime
    comment := if incoming.comment != "" then incoming.comment else old.comment
    tags := if incoming.tags != "" then incoming.tags else old.tags }

/-- Effect of one `INSERT ... ON CONFLICT(file_path) DO UPDATE` row. -/
def upsert_row (store : Store) (a : AssetRecord) : Store :=
  if List.any store (fun r => r.file_path == a.file_path) then
    List.map (fun r => if r.file_path == a.file_path then upsertMerge r a else r) store
  else
    (store : List AssetRecord) ++ [{ a with id := some (nextId store) }]

/-- `DatabaseManager.upsert_asset`: run the upsert, then re-select the id. -/
def upsert_asset (store : Store) (a : AssetRecord) : Int × Store :=
  let store' := upsert_row store a
  (match find_by_path store' a.file_path with
   | some r => (r.id).getD (-1)
   | none => -1, store')

/-- `DatabaseManager.upsert_assets_batch`: `executemany` of the same upsert
inside one transaction. -/
def upsert_assets_batch (store : Store) (assets : List AssetRecord) : Store :=
  List.foldl upsert_row store assets

/-! ## Read queries -/

/-- `DatabaseManager.get_asset_by_path` — note the 6-column SELECT. -/
def get_asset_by_path (store : Store) (p : String) : Option AssetRecord :=
  (find_by_path store p).map (fun r => from_row (toRow6 r))

/-- `DatabaseManager.get_asset_by_id` — note the 6-column SELECT. -/
def get_asset_by_id (store : Store) (i : Int) : Option AssetRecord :=
  (List.find? (fun r => r.id == some i) store).map (fun r => from_row (toRow6 r))

/-- Insertion sort used to model `ORDER BY` (SQLite leaves the relative
order of equal keys unspecified; any total ordering refines it). -/
def insertLe {α : Type} (le : α → α → Bool) (x : α) : List α → List α
  | [] => [x]
  | y :: ys => if le x y then x :: y :: ys else y :: insertLe le x ys

def sortByKey {α : Type} (le : α → α → Bool) : List α → List α
  | [] => []
  | x :: xs => insertLe le x (sortByKey le xs)

/-- Canonicalization performed by `get_assets_by_folder`: ensure a trailing
separator (the `os.path.abspath` step is the identity on the absolute,
normalized paths this model works with). -/
def canonFolder (f : String) : String :=
  if f.data.getLast? == some '/' then f else f ++ "/"

/-- `DatabaseManager.get_assets_by_folder`: `WHERE file_path LIKE folder || '%'
ORDER BY file_name`, with the 8-column SELECT. -/
def get_assets_by_folder (store : Store) (folder_path : String) : List AssetRecord :=
  let pat := (canonFolder folder_path ++ "%").data
  List.map (fun r => from_row (toRow8 r))
    (sortByKey (fun a b => a.file_name ≤ b.file_name)
      (List.filter (fun r => likeMatch pat r.file_path.data) store))

/-- `DatabaseManager.get_assets_recursive` — the source simply delegates to
`get_assets_by_folder` because `LIKE 'path/%'` is already recursive. -/
def get_assets_recursive (store : Store) (parent_path : String) : List AssetRecord :=
  get_assets_by_folder store parent_path

/-- `DatabaseManager.search_assets`: `WHERE file_name LIKE '%kw%'
ORDER BY mtime DESC LIMIT limit`, with the 6-column SELECT. -/
def search_assets (store : Store) (keyword : String) (limit : Nat) : List AssetRecord :=
  List.map (fun r => from_row (toRow6 r))
    (List.take limit
      (sortByKey (fun a b => b.mtime ≤ a.mtime)
        (List.filter (fun r => likeMatch ("%" ++ keyword ++ "%").data r.file_name.data) store)))

/-! ## Matcher (`watcher.find_matching_image`) -/

/-- Extension priority list used by `find_matching_image`. -/
def priority_order : List String := [".png", ".jpg", ".jpeg", ".tga", ".bmp"]

/-- Environment of the matcher: `os.listdir`, which may fail with
`PermissionError` (the only exception the source catches there). -/
structure MatchEnv where
  listdir : String → Except Unit (List String)

/-- Does `sib`'s stem match the (already lowered) model stem,
case-insensitively? -/
def stemMatches (model_stem : String) (sib : String) : Bool :=
  lowerStr (splitext sib).1 == model_stem.data

/-- Position of an extension in `priority_order` (`length` when absent);
smaller is higher priority. -/
def extRank (e : String) : Nat :=
  List.findIdx (fun x => x == e) priority_order

/-- `watcher.find_matching_image`: list the containing directory once, then
for each extension in priority order return the first sibling whose stem
matches the model stem case-insensitively and whose extension (lowered)
equals that extension. -/
def find_matching_image (env : MatchEnv) (model_path : String) : Option String :=
  let directory := dirname model_path
  let model_stem : String := ⟨lowerStr (splitext (basename model_path)).1⟩
  match env.listdir directory with
  | .error _ => none
  | .ok siblings =>
    List.findSome?
      (fun ext =>
        (List.find?
          (fun sib =>
            stemMatches model_stem sib && (lowerStr (splitext sib).2 == ext.data))
          siblings).map
          (fun sib => os_join directory sib))
      priority_order

/-! ## Thumbnail cache (`watcher.generate_thumbnail`) -/

/-- A flat view of the filesystem as far as `generate_thumbnail` touches it:
which paths are files and their mtimes.  Writing sets the file's mtime to
the environment's current clock. -/
structure FS where
  files : List (String × Int)
deriving Repr, DecidableEq

def FS.isFile (fs : FS) (p : String) : Bool :=
  (List.find? (fun e => e.1 == p) fs.files).isSome

def FS.mtimeOf (fs : FS) (p : String) : Int :=
  ((List.find? (fun e => e.1 == p) fs.files).map (·.2)).getD 0

def FS.write (fs : FS) (p : String) (t : Int) : FS :=
  if fs.isFile p then
    ⟨List.map (fun e => if e.1 == p then (e.1, t) else e) fs.files⟩
  else
    ⟨fs.files ++ [(p, t)]⟩

/-- Environment of the thumbnail generator: the cache directory path, the
path-hash (MD5 in the source — any deterministic function; only determinism
matters to the claims), whether decoding/re-encoding the source image
succeeds, and the current time stamped onto written cache files.
`HAS_PIL` is assumed true (with Pillow missing the whole feature is off). -/
structure ThumbEnv where
  cacheDir : String
  pathHash : String → String
  decode : FS → String → Bool
  now : Int

/-- The deterministic cache path `os.path.join(get_cache_dir(), md5(path) + ".jpg")`. -/
def cachePathOf (env : ThumbEnv) (image_path : String) : String :=
  os_join env.cacheDir (env.pathHash image_path ++ ".jpg")

/-- `watcher.generate_thumbnail`.  Returns the produced cache path (or
`none` on failure — the source catches every exception of the encode step)
together with the filesystem after the call. -/
def generate_thumbnail (env : ThumbEnv) (fs : FS) (image_path : String)
    (force : Bool) : Option String × FS :=
  if ¬ fs.isFile image_path then (none, fs)
  else
    let thumb_path := cachePathOf env image_path
    if ¬ force ∧ fs.isFile thumb_path ∧ fs.mtimeOf image_path ≤ fs.mtimeOf thumb_path then
      (some thumb_path, fs)
    else if env.decode fs image_path then
      (some thumb_path, fs.write thumb_path env.now)
    else
      (none, fs)

/-! ## Scan engine (`watcher.scan_folder`) -/

/-- Recognized 3D model extensions (`MODEL_EXTENSIONS`). -/
def MODEL_EXTENSIONS : List String :=
  [".fbx", ".obj", ".max", ".abc", ".blend", ".gltf", ".glb"]

/-- `HIDDEN_FOLDERS`. -/
def HIDDEN_FOLDERS : List String :=
  [".git", ".svn", ".hg", "__pycache__", ".mypy_cache", ".pytest_cache",
   ".vscode", ".idea", ".vs", ".mayaSwatches", "incrementalSave",
   "node_modules", ".next", "build", "dist", ".cache",
   "$RECYCLE.BIN", "System Volume Information"]

/-- `watcher.is_hidden_folder`. -/
def is_hidden_folder (name : String) : Bool :=
  (match name.data with
   | '.' :: _ => true
   | '_' :: '_' :: _ => true
   | _ => false)
  || List.any HIDDEN_FOLDERS (fun h => lowerStr h == lowerStr name)

/-- `ScanResult` dataclass. -/
structure ScanResult where
  total_files : Nat := 0
  new_assets : Nat := 0
  updated_assets : Nat := 0
  skipped_assets : Nat := 0
  thumbnails_generated : Nat := 0
  errors : List String := []
deriving Repr, DecidableEq

/-- A directory subtree: its name, whether listing it succeeds
(`readable = false` models `PermissionError` on `scandir`/`listdir`),
its plain files and its subdirectories. -/
inductive FSTree where
  | node (name : String) (readable : Bool) (files : List String) (subdirs : List FSTree)
deriving Repr

def FSTree.name : FSTree → String
  | .node n _ _ _ => n

/-!
`os.walk` (top-down, default `onerror=None` so unreadable directories are
silently skipped), combined with the `dirs[:]` hidden-folder pruning the
scan loop performs before descending.  Yields `(dirpath, filenames)`.
-/
mutual
def walkTree (path : String) : FSTree → List (String × List String)
  | .node _ readable files subdirs =>
    if readable then (path, files) :: walkForest path subdirs else []

def walkForest (path : String) : List FSTree → List (String × List String)
  | [] => []
  | t :: ts =>
    (if is_hidden_folder t.name then [] else walkTree (os_join path t.name) t)
      ++ walkForest path ts
end

/-- Does a filename carry a recognized model extension
(`os.path.splitext(f)[1].lower() in MODEL_EXTENSIONS`)? -/
def isModelFile (filename : String) : Bool :=
  List.any MODEL_EXTENSIONS (fun e => lowerStr (splitext filename).2 == e.data)

/-- `os.stat` result, as far as the scan uses it. -/
structure Stat where
  st_size : Nat
  st_mtime : Int
deriving Repr, DecidableEq

/-- Environment of one `scan_folder` call: the fallible externals the
engine touches per file, plus whether the final batch commit raises. -/
structure ScanEnv where
  progress_callback : Option (String → Nat → Nat → Except String Unit)
  stat : String → Except String Stat
  matchImage : String → Except String (Option String)
  genThumb : String → Option String
  genPlaceholder : String → Option String
  commitError : Option String

/-- One `should_stop` poll: Python calls the callback only when one was
supplied; the `Nat` counter numbers the calls so a deterministic predicate
over call order models any callback behaviour. -/
def checkStop (stop : Option (Nat → Bool)) (n : Nat) : Bool × Nat :=
  match stop with
  | some sp => (sp n, n + 1)
  | none => (false, n)

/-- Phase-1 collection over the walk output, polling `should_stop` once per
yielded directory; `none` means the walk was cancelled (the source returns
the still-empty result immediately). -/
def collectWalk (stop : Option (Nat → Bool)) :
    List (String × List String) → Nat → Option (List String × Nat)
  | [], n => some ([], n)
  | (p, files) :: rest, n =>
    let (stp, n') := checkStop stop n
    if stp then none
    else
      match collectWalk stop rest n' with
      | none => none
      | some (acc, n'') =>
        some (List.map (os_join p) (List.filter isModelFile files) ++ acc, n'')

/-- Thumbnail resolution for one file (the body between `find_matching_image`
and the record construction): a matched sibling image goes through
`generate_thumbnail` (counting a generated thumbnail on success), otherwise a
placeholder keyed by the model's extension is used. -/
def scanThumb (env : ScanEnv) (model_path : String) (img : Option String) :
    String × Bool :=
  match img with
  | some image_path =>
    match env.genThumb image_path with
    | some t => (t, true)
    | none => ("", false)
  | none =>
    match env.genPlaceholder ⟨lowerStr (splitext model_path).2⟩ with
    | some t => (t, false)
    | none => ("", false)

/-- The fresh `AssetRecord` the scan batches for a new/updated file. -/
def freshRecord (env : ScanEnv) (model_path : String) (st : Stat)
    (img : Option String) : AssetRecord :=
  { file_path := model_path
    file_name := basename model_path
    thumb_path := (scanThumb env model_path img).1
    file_size := format_file_size st.st_size
    mtime := st.st_mtime }

/-- Outcome of one iteration of the reconciliation loop body. -/
inductive Outcome where
  | skipped
  | add (isUpdate : Bool) (thumbGen : Bool) (r : AssetRecord)
deriving Repr, DecidableEq

/-- The `try:` body of the per-file loop: progress callback, `os.stat`,
catalog lookup, skip-on-unchanged check, thumbnail resolution, record
construction.  An `Except.error` is the exception the `except` clause
catches. -/
def processFile (env : ScanEnv) (store : Store) (model_path : String)
    (index : Nat) (total : Nat) : Except String Outcome := do
  match env.progress_callback with
  | some cb => cb model_path (index + 1) total
  | none => pure ()
  let st ← env.stat model_path
  let existing := get_asset_by_path store model_path
  let unchanged : Bool := match existing with
    | some ex => decide (st.st_mtime ≤ ex.mtime)
    | none => false
  if unchanged then
    return .skipped
  let img ← env.matchImage model_path
  return .add existing.isSome (scanThumb env model_path img).2
    (freshRecord env model_path st img)

/-- The per-file error entry `f"处理失败 [{model_path}]: {e}"`. -/
def errMsg (p e : String) : String :=
  "处理失败 [" ++ p ++ "]: " ++ e

/-- `result.thumbnails_generated += 1` when a thumbnail was generated. -/
def bumpThumb (res : ScanResult) (tgen : Bool) : ScanResult :=
  if tgen then { res with thumbnails_generated := res.thumbnails_generated + 1 }
  else res

/-- `result.updated_assets += 1` / `result.new_assets += 1` depending on
whether a prior catalog entry existed. -/
def bumpClass (res : ScanResult) (isUpd : Bool) : ScanResult :=
  if isUpd then { res with updated_assets := res.updated_assets + 1 }
  else { res with new_assets := res.new_assets + 1 }

/-- Phase 2: the reconciliation loop over the collected files, threading the
stop-poll counter, the running `ScanResult` and the write batch.  A stop
poll returning true breaks out, keeping the result and batch accumulated so
far; a per-file error appends to `errors` and continues. -/
def reconcile (env : ScanEnv) (store : Store) (stop : Option (Nat → Bool)) :
    List String → Nat → Nat → ScanResult → List AssetRecord →
    ScanResult × List AssetRecord
  | [], _, _, res, batch => (res, batch)
  | f :: rest, idx, n, res, batch =>
    let (stp, n') := checkStop stop n
    if stp then (res, batch)
    else
      match processFile env store f idx res.total_files with
      | .error e =>
        reconcile env store stop rest (idx + 1) n'
          { res with errors := res.errors ++ [errMsg f e] } batch
      | .ok .skipped =>
        reconcile env store stop rest (idx + 1) n'
          { res with skipped_assets := res.skipped_assets + 1 } batch
      | .ok (.add isUpd tgen r) =>
        reconcile env store stop rest (idx + 1) n'
          (bumpClass (bumpThumb res tgen) isUpd) (batch ++ [r])

/-- Phases 2+3 once the model files are collected: set `total_files`, run
the loop, then batch-commit (a commit exception becomes one error entry and
leaves the store untouched). -/
def scanCommit (env : ScanEnv) (store : Store) (stop : Option (Nat → Bool))
    (model_files : List String) (n : Nat) : ScanResult × Store :=
  let res0 : ScanResult := { total_files := model_files.length }
  if model_files.isEmpty then (res0, store)
  else
    let (res, batch) := reconcile env store stop model_files 0 n res0 []
    if batch.isEmpty then (res, store)
    else
      match env.commitError with
      | some e => ({ res with errors := res.errors ++ ["数据库写入失败: " ++ e] }, store)
      | none => (res, upsert_assets_batch store batch)

/-- `watcher.scan_folder`.  `root` is the directory tree at `folder_path`
(`none` when `os.path.isdir` is false).  Total by construction: the source
catches every per-file and commit exception, so no exception escapes. -/
def scan_folder (env : ScanEnv) (store : Store) (folder_path : String)
    (root : Option FSTree) (recursive : Bool) (stop : Option (Nat → Bool)) :
    ScanResult × Store :=
  match root with
  | none => ({ errors := ["目录不存在: " ++ folder_path] }, store)
  | some tree =>
    if recursive then
      match collectWalk stop (walkTree folder_path tree) 0 with
      | none => ({}, store)
      | some (model_files, n) => scanCommit env store stop model_files n
    else
      match tree with
      | .node _ readable files _ =>
        if readable then
          scanCommit env store stop
            (List.map (os_join folder_path) (List.filter isModelFile files)) 0
        else
          ({ errors := ["权限错误: " ++ folder_path] }, store)

/-! ## Helper lemmas -/

theorem upsertMerge_file_path (old a : AssetRecord) :
    (upsertMerge old a).file_path = old.file_path := rfl

theorem find?_map_upsert (p : String) (a : AssetRecord) (l : List AssetRecord)
    (r0 : AssetRecord)
    (hr : List.find? (fun r => r.file_path == p) l = some r0) :
    List.find? (fun r => r.file_path == p)
      (List.map (fun r => if r.file_path == p then upsertMerge r a else r) l)
      = some (upsertMerge r0 a) := by
  induction l with
  | nil => simp at hr
  | cons r rest ih =>
    by_cases hh : (r.file_path == p : Bool)
    · have hmerge : ((upsertMerge r a).file_path == p) = true := by
        simpa [upsertMerge_file_path] using hh
      simp only [List.find?_cons, hh] at hr
      injection hr with hr0
      subst hr0
      rw [List.map_cons, if_pos hh, List.find?_cons, hmerge]
    · have hh' : (r.file_path == p) = false := by simpa using hh
      simp only [List.find?_cons, hh'] at hr
      rw [List.map_cons, if_neg hh, List.find?_cons, hh']
      exact ih hr

theorem find_by_path_upsert_row (store : Store) (a r0 : AssetRecord)
    (hr : find_by_path store a.file_path = some r0) :
    find_by_path (upsert_row store a) a.file_path = some (upsertMerge r0 a) := by
  unfold find_by_path at hr
  have hmem := List.mem_of_find?_eq_some hr
  have hp := List.find?_some hr
  have hany : List.any store (fun r => r.file_path == a.file_path) = true :=
    List.any_eq_true.mpr ⟨r0, hmem, hp⟩
  unfold upsert_row find_by_path
  rw [if_pos hany]
  exact find?_map_upsert a.file_path a store r0 hr

theorem mem_insertLe {α : Type} (le : α → α → Bool) (x : α) (l : List α) (a : α) :
    a ∈ insertLe le x l ↔ a = x ∨ a ∈ l := by
  induction l with
  | nil => simp [insertLe]
  | cons y ys ih =>
    by_cases h : le x y
    · simp [insertLe, h]
    · simp [insertLe, h, ih]
      tauto

theorem mem_sortByKey {α : Type} (le : α → α → Bool) (l : List α) (a : α) :
    a ∈ sortByKey le l ↔ a ∈ l := by
  induction l with
  | nil => simp [sortByKey]
  | cons y ys ih => simp [sortByKey, mem_insertLe, ih]

/-! ## C10 -/

/-- C10: for every folder path, `get_assets_recursive` returns exactly the
same list of records, in the same order, as `get_assets_by_folder` — the
source delegates wholesale, the `LIKE 'path/%'` prefix query already being
recursive. -/
theorem recursive_query_eq_folder_query (store : Store) (p : String) :
    get_assets_recursive store p = get_assets_by_folder store p := rfl

/-! ## C1 -/

/-- C1: re-upserting a record for an existing `file_path` (via
`upsert_asset` or a singleton `upsert_assets_batch`) refreshes `file_name`,
`thumb_path`, `file_size` and `mtime`, keeps the stored `comment`/`tags`
whenever the incoming value is empty (in particular a stored non-empty
value is never clobbered by an empty one), and overwrites them whenever the
incoming value is non-empty. -/
theorem upsert_sticky_merge (store : Store) (a r0 : AssetRecord)
    (hr : find_by_path store a.file_path = some r0) :
    ∃ r', find_by_path (upsert_asset store a).2 a.file_path = some r' ∧
      find_by_path (upsert_assets_batch store [a]) a.file_path = some r' ∧
      r'.file_name = a.file_name ∧
      r'.thumb_path = a.thumb_path ∧
      r'.file_size = a.file_size ∧
      r'.mtime = a.mtime ∧
      r'.id = r0.id ∧
      (a.comment = "" → r'.comment = r0.comment) ∧
      (a.comment ≠ "" → r'.comment = a.comment) ∧
      (a.tags = "" → r'.tags = r0.tags) ∧
      (a.tags ≠ "" → r'.tags = a.tags) := by
  refine ⟨upsertMerge r0 a, ?_, ?_, rfl, rfl, rfl, rfl, rfl, ?_, ?_, ?_, ?_⟩
  · exact find_by_path_upsert_row store a r0 hr
  · exact find_by_path_upsert_row store a r0 hr
  · intro h; simp [upsertMerge, h]
  · intro h; simp [upsertMerge, h]
  · intro h; simp [upsertMerge, h]
  · intro h; simp [upsertMerge, h]

/-- Witness for C1 at a concrete store: a stored record with non-empty
comment/tags survives an empty re-upsert with data fields refreshed. -/
theorem upsert_sticky_merge_witness :
    ∃ r', find_by_path
        (upsert_asset
          [{ id := some 1, file_path := "/m/a.fbx", file_name := "a.fbx",
             thumb_path := "old.jpg", file_size := "1 KB", mtime := 5,
             comment := "note", tags := "hero" }]
          { file_path := "/m/a.fbx", file_name := "a.fbx",
            thumb_path := "new.jpg", file_size := "2 KB", mtime := 9 }).2
        "/m/a.fbx" = some r' ∧
      find_by_path
        (upsert_assets_batch
          [{ id := some 1, file_path := "/m/a.fbx", file_name := "a.fbx",
             thumb_path := "old.jpg", file_size := "1 KB", mtime := 5,
             comment := "note", tags := "hero" }]
          [{ file_path := "/m/a.fbx", file_name := "a.fbx",
             thumb_path := "new.jpg", file_size := "2 KB", mtime := 9 }])
        "/m/a.fbx" = some r' ∧
      r'.file_name = "a.fbx" ∧
      r'.thumb_path = "new.jpg" ∧
      r'.file_size = "2 KB" ∧
      r'.mtime = 9 ∧
      r'.id = some 1 ∧
      ("" = "" → r'.comment = "note") ∧
      (("" : String) ≠ "" → r'.comment = "") ∧
      ("" = "" → r'.tags = "hero") ∧
      (("" : String) ≠ "" → r'.tags = "") := by
  exact upsert_sticky_merge
    [{ id := some 1, file_path := "/m/a.fbx", file_name := "a.fbx",
       thumb_path := "old.jpg", file_size := "1 KB", mtime := 5,
       comment := "note", tags := "hero" }]
    { file_path := "/m/a.fbx", file_name := "a.fbx",
      thumb_path := "new.jpg", file_size := "2 KB", mtime := 9 }
    { id := some 1, file_path := "/m/a.fbx", file_name := "a.fbx",
      thumb_path := "old.jpg", file_size := "1 KB", mtime := 5,
      comment := "note", tags := "hero" }
    (by decide)

/-! ## C8 -/

/-- C8: `get_asset_by_path`, `get_asset_by_id` and `search_assets` all build
records from the 6-column SELECT, so `from_row` defaults `comment`/`tags`
to the empty string even when the stored row holds non-empty values (the
other scalar fields come through unchanged); `get_assets_by_folder` uses
the 8-column SELECT and returns the stored `comment`/`tags`. -/
theorem queries_drop_metadata :
    (∀ (store : Store) (p : String) (r : AssetRecord),
      find_by_path store p = some r →
      get_asset_by_path store p = some (from_row (toRow6 r)) ∧
      (from_row (toRow6 r)).comment = "" ∧
      (from_row (toRow6 r)).tags = "" ∧
      (from_row (toRow6 r)).file_path = r.file_path ∧
      (from_row (toRow6 r)).file_name = r.file_name ∧
      (from_row (toRow6 r)).mtime = r.mtime) ∧
    (∀ (store : Store) (i : Int) (r : AssetRecord),
      List.find? (fun x => x.id == some i) store = some r →
      get_asset_by_id store i = some (from_row (toRow6 r)) ∧
      (from_row (toRow6 r)).comment = "" ∧ (from_row (toRow6 r)).tags = "") ∧
    (∀ (store : Store) (kw : String) (lim : Nat) (x : AssetRecord),
      x ∈ search_assets store kw lim → x.comment = "" ∧ x.tags = "") ∧
    (∀ (store : Store) (f : String) (x : AssetRecord),
      x ∈ get_assets_by_folder store f →
      ∃ r ∈ store, x = from_row (toRow8 r) ∧
        x.comment = r.comment ∧ x.tags = r.tags) := by
  refine ⟨?_, ?_, ?_, ?_⟩
  · intro store p r hr
    refine ⟨?_, rfl, rfl, rfl, rfl, rfl⟩
    simp [get_asset_by_path, hr]
  · intro store i r hr
    refine ⟨?_, rfl, rfl⟩
    simp [get_asset_by_id, hr]
  · intro store kw lim x hx
    unfold search_assets at hx
    rcases List.mem_map.mp hx with ⟨r, _, hxr⟩
    subst hxr
    exact ⟨rfl, rfl⟩
  · intro store f x hx
    unfold get_assets_by_folder at hx
    rcases List.mem_map.mp hx with ⟨r, hrmem, hxr⟩
    subst hxr
    have hrstore : r ∈ store := by
      have := (mem_sortByKey _ _ r).mp hrmem
      exact (List.mem_filter.mp this).1
    exact ⟨r, hrstore, rfl, rfl, rfl⟩

/-- Witness for C8: a stored record with non-empty comment/tags comes back
metadata-less from the path query but intact from the folder query. -/
theorem queries_drop_metadata_witness :
    (get_asset_by_path
        [{ id := some 1, file_path := "/m/a.fbx", file_name := "a.fbx",
           thumb_path := "t.jpg", file_size := "1 KB", mtime := 5,
           comment := "note", tags := "hero" }] "/m/a.fbx"
      = some (from_row (toRow6
          { id := some 1, file_path := "/m/a.fbx", file_name := "a.fbx",
            thumb_path := "t.jpg", file_size := "1 KB", mtime := 5,
            comment := "note", tags := "hero" }))) ∧
    (from_row (toRow6
        { id := some 1, file_path := "/m/a.fbx", file_name := "a.fbx",
          thumb_path := "t.jpg", file_size := "1 KB", mtime := 5,
          comment := "note", tags := "hero" })).comment = "" ∧
    ∃ r ∈ ([{ id := some 1, file_path := "/m/a.fbx", file_name := "a.fbx",
              thumb_path := "t.jpg", file_size := "1 KB", mtime := 5,
              comment := "note", tags := "hero" }] : Store),
      from_row (toRow8
          { id := some 1, file_path := "/m/a.fbx", file_name := "a.fbx",
            thumb_path := "t.jpg", file_size := "1 KB", mtime := 5,
            comment := "note", tags := "hero" })
        = from_row (toRow8 r) ∧
      (from_row (toRow8
          { id := some 1, file_path := "/m/a.fbx", file_name := "a.fbx",
            thumb_path := "t.jpg", file_size := "1 KB", mtime := 5,
            comment := "note", tags := "hero" })).comment = r.comment := by
  have h1 := (queries_drop_metadata.1
    [{ id := some 1, file_path := "/m/a.fbx", file_name := "a.fbx",
       thumb_path := "t.jpg", file_size := "1 KB", mtime := 5,
       comment := "note", tags := "hero" }] "/m/a.fbx"
    { id := some 1, file_path := "/m/a.fbx", file_name := "a.fbx",
      thumb_path := "t.jpg", file_size := "1 KB", mtime := 5,
      comment := "note", tags := "hero" } (by decide))
  have h4 := queries_drop_metadata.2.2.2
    [{ id := some 1, file_path := "/m/a.fbx", file_name := "a.fbx",
       thumb_path := "t.jpg", file_size := "1 KB", mtime := 5,
       comment := "note", tags := "hero" }] "/m"
    (from_row (toRow8
      { id := some 1, file_path := "/m/a.fbx", file_name := "a.fbx",
        thumb_path := "t.jpg", file_size := "1 KB", mtime := 5,
        comment := "note", tags := "hero" }))
    (by decide)
  refine ⟨h1.1, h1.2.1, ?_⟩
  rcases h4 with ⟨r, hrmem, hxr, hc, _⟩
  exact ⟨r, hrmem, hxr, hc⟩

/-! ## C6 -/

/-- C6: with `force = false`, whenever the cache entry for a source image
exists and its modification time is ≥ the source's, `generate_thumbnail`
returns the cache path without touching the filesystem; hence two
consecutive calls return the identical path, the second call leaves the
cache file unwritten, and its outcome does not depend on the image
decoder at all (it returns before re-reading or re-encoding). -/
theorem generate_thumbnail_idempotent (env : ThumbEnv) (fs : FS) (p : String)
    (hsrc : fs.isFile p = true)
    (hcache : fs.isFile (cachePathOf env p) = true)
    (hfresh : fs.mtimeOf p ≤ fs.mtimeOf (cachePathOf env p)) :
    generate_thumbnail env fs p false = (some (cachePathOf env p), fs) ∧
    generate_thumbnail env (generate_thumbnail env fs p false).2 p false
      = generate_thumbnail env fs p false ∧
    (∀ d, generate_thumbnail { env with decode := d } fs p false
        = (some (cachePathOf env p), fs)) := by
  have hmain : ∀ d, generate_thumbnail { env with decode := d } fs p false
      = (some (cachePathOf env p), fs) := by
    intro d
    unfold generate_thumbnail
    have hcp : cachePathOf { env with decode := d } p = cachePathOf env p := rfl
    rw [hcp]
    simp [hsrc, hcache, hfresh]
  have h1 : generate_thumbnail env fs p false = (some (cachePathOf env p), fs) := by
    have := hmain env.decode
    simpa using this
  refine ⟨h1, ?_, hmain⟩
  rw [h1]
  exact h1

/-- Witness for C6 at a concrete filesystem: source at mtime 5, cache entry
at mtime 7. -/
theorem generate_thumbnail_idempotent_witness :
    generate_thumbnail
        ⟨"/c", fun _ => "h", fun _ _ => true, 10⟩
        ⟨[("/img.png", 5), ("/c/h.jpg", 7)]⟩ "/img.png" false
      = (some (cachePathOf ⟨"/c", fun _ => "h", fun _ _ => true, 10⟩ "/img.png"),
         ⟨[("/img.png", 5), ("/c/h.jpg", 7)]⟩) ∧
    generate_thumbnail
        ⟨"/c", fun _ => "h", fun _ _ => true, 10⟩
        (generate_thumbnail
          ⟨"/c", fun _ => "h", fun _ _ => true, 10⟩
          ⟨[("/img.png", 5), ("/c/h.jpg", 7)]⟩ "/img.png" false).2 "/img.png" false
      = generate_thumbnail
          ⟨"/c", fun _ => "h", fun _ _ => true, 10⟩
          ⟨[("/img.png", 5), ("/c/h.jpg", 7)]⟩ "/img.png" false := by
  have h := generate_thumbnail_idempotent
    ⟨"/c", fun _ => "h", fun _ _ => true, 10⟩
    ⟨[("/img.png", 5), ("/c/h.jpg", 7)]⟩ "/img.png"
    (by decide) (by decide) (by decide)
  exact ⟨h.1, h.2.1⟩

/-! ## C2 -/

/-- C2: classification of one collected file during reconciliation, given
that its stat succeeds (and, for the non-skip branches, that the sibling
image lookup returns): a file whose stored `mtime` is ≥ the on-disk mtime
is counted in `skipped_assets` and contributes nothing to the write batch;
a file whose on-disk mtime is strictly greater is counted in
`updated_assets` and a fresh record is appended to the batch; a file with
no prior catalog entry is counted in `new_assets` with a fresh record
appended. -/
theorem scan_reconcile_classification
    (env : ScanEnv) (store : Store) (f : String) (st : Stat)
    (rest : List String) (idx n : Nat) (res : ScanResult)
    (batch : List AssetRecord)
    (hcb : env.progress_callback = none)
    (hst : env.stat f = Except.ok st) :
    (∀ ex, get_asset_by_path store f = some ex → st.st_mtime ≤ ex.mtime →
      processFile env store f idx res.total_files = Except.ok Outcome.skipped ∧
      reconcile env store none (f :: rest) idx n res batch
        = reconcile env store none rest (idx + 1) n
            { res with skipped_assets := res.skipped_assets + 1 } batch) ∧
    (∀ ex img, get_asset_by_path store f = some ex → ex.mtime < st.st_mtime →
      env.matchImage f = Except.ok img →
      processFile env store f idx res.total_files
        = Except.ok (Outcome.add true (scanThumb env f img).2
            (freshRecord env f st img)) ∧
      reconcile env store none (f :: rest) idx n res batch
        = reconcile env store none rest (idx + 1) n
            (bumpClass (bumpThumb res (scanThumb env f img).2) true)
            (batch ++ [freshRecord env f st img])) ∧
    (∀ img, get_asset_by_path store f = none →
      env.matchImage f = Except.ok img →
      processFile env store f idx res.total_files
        = Except.ok (Outcome.add false (scanThumb env f img).2
            (freshRecord env f st img)) ∧
      reconcile env store none (f :: rest) idx n res batch
        = reconcile env store none rest (idx + 1) n
            (bumpClass (bumpThumb res (scanThumb env f img).2) false)
            (batch ++ [freshRecord env f st img])) := by
  refine ⟨?_, ?_, ?_⟩
  · intro ex hex hle
    have hpf : processFile env store f idx res.total_files
        = Except.ok Outcome.skipped := by
      simp [processFile, hcb, hst, hex, hle, Bind.bind, Except.bind,
        Pure.pure, Except.pure]
    exact ⟨hpf, by simp [reconcile, checkStop, hpf]⟩
  · intro ex img hex hlt him
    have hpf : processFile env store f idx res.total_files
        = Except.ok (Outcome.add true (scanThumb env f img).2
            (freshRecord env f st img)) := by
      simp [processFile, hcb, hst, hex, him, Int.not_le.mpr hlt, Bind.bind,
        Except.bind, Pure.pure, Except.pure]
    exact ⟨hpf, by simp [reconcile, checkStop, hpf]⟩
  · intro img hex him
    have hpf : processFile env store f idx res.total_files
        = Except.ok (Outcome.add false (scanThumb env f img).2
            (freshRecord env f st img)) := by
      simp [processFile, hcb, hst, hex, him, Bind.bind, Except.bind,
        Pure.pure, Except.pure]
    exact ⟨hpf, by simp [reconcile, checkStop, hpf]⟩

/-- Witness for C2: a stored entry at mtime 9 against an on-disk mtime 5 is
skipped without touching the batch. -/
theorem scan_reconcile_classification_witness :
    processFile
        { progress_callback := none, stat := fun _ => Except.ok ⟨10, 5⟩,
          matchImage := fun _ => Except.ok none, genThumb := fun _ => none,
          genPlaceholder := fun _ => none, commitError := none }
        [{ id := some 1, file_path := "/m/a.fbx", file_name := "a.fbx",
           mtime := 9 }] "/m/a.fbx" 0 ({ total_files := 1 } : ScanResult).total_files
      = Except.ok Outcome.skipped ∧
    reconcile
        { progress_callback := none, stat := fun _ => Except.ok ⟨10, 5⟩,
          matchImage := fun _ => Except.ok none, genThumb := fun _ => none,
          genPlaceholder := fun _ => none, commitError := none }
        [{ id := some 1, file_path := "/m/a.fbx", file_name := "a.fbx",
           mtime := 9 }] none ["/m/a.fbx"] 0 0 { total_files := 1 } []
      = reconcile
          { progress_callback := none, stat := fun _ => Except.ok ⟨10, 5⟩,
            matchImage := fun _ => Except.ok none, genThumb := fun _ => none,
            genPlaceholder := fun _ => none, commitError := none }
          [{ id := some 1, file_path := "/m/a.fbx", file_name := "a.fbx",
             mtime := 9 }] none [] 1 0
          { ({ total_files := 1 } : ScanResult) with
            skipped_assets := ({ total_files := 1 } : ScanResult).skipped_assets + 1 } [] := by
  exact (scan_reconcile_classification
      { progress_callback := none, stat := fun _ => Except.ok ⟨10, 5⟩,
        matchImage := fun _ => Except.ok none, genThumb := fun _ => none,
        genPlaceholder := fun _ => none, commitError := none }
      [{ id := some 1, file_path := "/m/a.fbx", file_name := "a.fbx",
         mtime := 9 }] "/m/a.fbx" ⟨10, 5⟩ [] 0 0 { total_files := 1 } []
      rfl rfl).1
    (from_row (toRow6
      { id := some 1, file_path := "/m/a.fbx", file_name := "a.fbx", mtime := 9 }))
    (by decide) (by decide)

/-! ## C4 -/

/-- C4: error containment in `scan_folder` — which is total, so no
exception ever propagates out of a scan.  (1) When processing one file
raises (stat failure, sibling-listing failure, progress-callback failure
are the fallible steps of `processFile`), the loop appends one textual
entry `处理失败 [path]: e` to the error list and continues with the
remaining files, leaving counts and batch untouched.  (2) When the final
batch commit raises, the scan returns normally with exactly one additional
error entry `数据库写入失败: e` and the store unchanged. -/
theorem scan_error_containment (env : ScanEnv) (store : Store) :
    (∀ f e rest idx n res batch,
      processFile env store f idx res.total_files = Except.error e →
      reconcile env store none (f :: rest) idx n res batch
        = reconcile env store none rest (idx + 1) n
            { res with errors := res.errors ++ [errMsg f e] } batch) ∧
    (∀ fp nm files subs stop e res batch,
      env.commitError = some e →
      reconcile env store stop
          (List.map (os_join fp) (List.filter isModelFile files)) 0 0
          { total_files :=
              (List.map (os_join fp) (List.filter isModelFile files)).length } []
        = (res, batch) →
      List.map (os_join fp) (List.filter isModelFile files) ≠ [] →
      batch ≠ [] →
      scan_folder env store fp (some (FSTree.node nm true files subs)) false stop
        = ({ res with errors := res.errors ++ ["数据库写入失败: " ++ e] }, store)) := by
  constructor
  · intro f e rest idx n res batch hpf
    simp [reconcile, checkStop, hpf]
  · intro fp nm files subs stop e res batch hce hrec hne hb
    show scanCommit env store stop
        (List.map (os_join fp) (List.filter isModelFile files)) 0 = _
    generalize hc : List.map (os_join fp) (List.filter isModelFile files) = c at hrec hne ⊢
    unfold scanCommit
    rw [if_neg (by simpa [List.isEmpty_iff] using hne), hrec]
    simp [hce, List.isEmpty_iff, hb]

/-- Witness for C4: a failing `os.stat` turns into one error entry and the
loop moves on. -/
theorem scan_error_containment_witness :
    reconcile
        { progress_callback := none, stat := fun _ => Except.error "boom",
          matchImage := fun _ => Except.ok none, genThumb := fun _ => none,
          genPlaceholder := fun _ => none, commitError := none }
        [] none ["/m/a.fbx"] 0 0 { total_files := 1 } []
      = reconcile
          { progress_callback := none, stat := fun _ => Except.error "boom",
            matchImage := fun _ => Except.ok none, genThumb := fun _ => none,
            genPlaceholder := fun _ => none, commitError := none }
          [] none [] 1 0
          { ({ total_files := 1 } : ScanResult) with
            errors := ({ total_files := 1 } : ScanResult).errors
              ++ [errMsg "/m/a.fbx" "boom"] } [] := by
  exact (scan_error_containment
      { progress_callback := none, stat := fun _ => Except.error "boom",
        matchImage := fun _ => Except.ok none, genThumb := fun _ => none,
        genPlaceholder := fun _ => none, commitError := none } []).1
    "/m/a.fbx" "boom" [] 0 0 { total_files := 1 } [] rfl

/-! ## C9 -/

/-- C9 counterexample: the claim says a permission error while listing a
directory in the *recursive* walk leaves an explanatory entry in
`ScanResult.errors`.  It does not: `os.walk` is invoked with its default
`onerror=None`, so an unreadable directory is silently skipped.  Scanning
an existing but unreadable folder recursively returns a `ScanResult` with
an empty error list. -/
theorem scan_recursive_permission_silent_counterexample :
    (scan_folder
        { progress_callback := none, stat := fun _ => Except.ok ⟨10, 5⟩,
          matchImage := fun _ => Except.ok none, genThumb := fun _ => none,
          genPlaceholder := fun _ => none, commitError := none }
        [] "/r" (some (FSTree.node "r" false ["a.fbx"] [])) true none).1.errors
      = [] := by
  rfl

/-- C9 (amended): a structural failure produces an explanatory error entry
for (1) a non-existent target folder and (2) a permission error while
listing in the *non-recursive* walk; a permission error during the
recursive walk, however, is silently swallowed by `os.walk` — the scan
returns an empty `ScanResult` with *no* error entry.  In every case the
scan returns normally with the store untouched. -/
theorem scan_structural_failures (env : ScanEnv) (store : Store)
    (fp : String) (stop : Option (Nat → Bool)) :
    (∀ recursive, scan_folder env store fp none recursive stop
      = ({ errors := ["目录不存在: " ++ fp] }, store)) ∧
    (∀ nm files subs,
      scan_folder env store fp (some (FSTree.node nm false files subs)) false stop
        = ({ errors := ["权限错误: " ++ fp] }, store)) ∧
    (∀ nm files subs,
      scan_folder env store fp (some (FSTree.node nm false files subs)) true stop
        = ({}, store)) := by
  refine ⟨fun recursive => rfl, fun nm files subs => rfl, fun nm files subs => ?_⟩
  simp [scan_folder, walkTree, collectWalk, scanCommit]

/-! ## C5 -/

/-- `%` alone matches anything. -/
theorem likeMatch_percent_nil (s : List Char) :
    likeMatch ['%'] s = true := by
  induction s with
  | nil => rfl
  | cons c s ih => simp [likeMatch, likeSuffix] at ih ⊢; simp [ih]

/-- For a wildcard-free prefix `pre`, the pattern `pre ++ "%"` (exactly the
shape `get_assets_by_folder` builds) matches precisely the ASCII-case-
insensitive extensions of `pre`. -/
theorem likeMatch_append_percent (pre : List Char)
    (h : ∀ c ∈ pre, c ≠ '_' ∧ c ≠ '%') (s : List Char) :
    likeMatch (pre ++ ['%']) s
      = (pre.map lowerChar).isPrefixOf (s.map lowerChar) := by
  induction pre generalizing s with
  | nil => simpa using likeMatch_percent_nil s
  | cons c pre ih =>
    have hc := h c (by simp)
    have hrest : ∀ c ∈ pre, c ≠ '_' ∧ c ≠ '%' := fun d hd => h d (by simp [hd])
    cases s with
    | nil => simp [likeMatch, hc.1, hc.2, List.isPrefixOf]
    | cons c' s =>
      simp only [List.cons_append, likeMatch, if_neg hc.2, if_neg hc.1,
        List.map_cons, List.isPrefixOf_cons₂_self]
      simp [List.isPrefixOf, ih hrest s]

/-- Does a string contain a SQLite `LIKE` metacharacter? -/
def hasWildcard (s : String) : Bool :=
  s.data.any (fun c => c == '_' || c == '%')

/-- C5 counterexample: the claim promises separator-bounded prefix
isolation "for all folder paths including those containing characters
special to the underlying match (such as '_' or '%')".  The query uses
`LIKE` with no `ESCAPE`, so `_` matches any single character: querying the
folder `/a/x_y` returns the asset stored under `/a/xzy/`, whose path does
not start with `/a/x_y/`. -/
theorem folder_query_wildcard_counterexample :
    List.map (fun x => x.file_path)
        (get_assets_by_folder
          [{ id := some 1, file_path := "/a/xzy/f.fbx", file_name := "f.fbx" }]
          "/a/x_y")
      = ["/a/xzy/f.fbx"] ∧
    startsWithCI "/a/x_y/" "/a/xzy/f.fbx" = false := by
  exact ⟨rfl, rfl⟩

/-- C5 (amended): provided the canonicalized folder path contains no `LIKE`
metacharacter (`_` or `%`), `get_assets_by_folder F` returns exactly the
stored records whose `file_path` starts — ASCII-case-insensitively, the
comparison SQLite's default `LIKE` performs — with the canonicalized `F`
(trailing separator enforced); in particular a query for `/a/b` never
returns an asset under `/a/bc/`.  For folder paths containing `_` or `%`
the query can over-match (see the counterexample). -/
theorem folder_query_prefix_isolation (store : Store) (f : String)
    (x : AssetRecord) (hw : hasWildcard (canonFolder f) = false) :
    x ∈ get_assets_by_folder store f ↔
      ∃ r ∈ store, x = from_row (toRow8 r) ∧
        startsWithCI (canonFolder f) r.file_path = true := by
  have hnw : ∀ c ∈ (canonFolder f).data, c ≠ '_' ∧ c ≠ '%' := by
    simpa [hasWildcard] using hw
  have hpat : (canonFolder f ++ "%").data = (canonFolder f).data ++ ['%'] := by
    rw [String.data_append]
  constructor
  · intro hx
    unfold get_assets_by_folder at hx
    rcases List.mem_map.mp hx with ⟨r, hrmem, hxr⟩
    have hrf := (mem_sortByKey _ _ r).mp hrmem
    rcases List.mem_filter.mp hrf with ⟨hrstore, hlike⟩
    refine ⟨r, hrstore, hxr.symm, ?_⟩
    rw [hpat, likeMatch_append_percent _ hnw] at hlike
    exact hlike
  · rintro ⟨r, hrstore, hxr, hpre⟩
    unfold get_assets_by_folder
    refine List.mem_map.mpr ⟨r, ?_, hxr.symm⟩
    refine (mem_sortByKey _ _ r).mpr (List.mem_filter.mpr ⟨hrstore, ?_⟩)
    rw [hpat, likeMatch_append_percent _ hnw]
    exact hpre

/-- Witness for the amended C5: querying `/a/b` returns the asset under
`/a/b/` and (by the reverse direction at an over-approximating path) not
the one under `/a/bc/`. -/
theorem folder_query_prefix_isolation_witness :
    ({ id := some 1, file_path := "/a/b/f.fbx", file_name := "f.fbx" } : AssetRecord)
        ∈ get_assets_by_folder
          ([{ id := some 1, file_path := "/a/b/f.fbx", file_name := "f.fbx" }] : Store)
          "/a/b"
      ↔ ∃ r ∈ ([{ id := some 1, file_path := "/a/b/f.fbx",
                  file_name := "f.fbx" }] : Store),
          ({ id := some 1, file_path := "/a/b/f.fbx", file_name := "f.fbx" } : AssetRecord)
              = from_row (toRow8 r) ∧
            startsWithCI (canonFolder "/a/b") r.file_path = true := by
  exact folder_query_prefix_isolation
    [{ id := some 1, file_path := "/a/b/f.fbx", file_name := "f.fbx" }] "/a/b"
    { id := some 1, file_path := "/a/b/f.fbx", file_name := "f.fbx" }
    (by decide)

/-! ## C7 -/

/-- The (lowered) extension of a sibling filename, as compared against the
priority list. -/
def sibExt (s : String) : String :=
  ⟨lowerStr (splitext s).2⟩

theorem findSome?_eq_some_split {α β : Type} (f : α → Option β) (l : List α)
    (b : β) (h : List.findSome? f l = some b) :
    ∃ l1 x l2, l = l1 ++ x :: l2 ∧ f x = some b ∧ ∀ y ∈ l1, f y = none := by
  induction l with
  | nil => simp at h
  | cons a l ih =>
    rw [List.findSome?_cons] at h
    cases hfa : f a with
    | some b' =>
      rw [hfa] at h
      refine ⟨[], a, l, rfl, ?_, by simp⟩
      rw [hfa]
      exact h
    | none =>
      rw [hfa] at h
      rcases ih h with ⟨l1, x, l2, hsplit, hfx, hnone⟩
      refine ⟨a :: l1, x, l2, by simp [hsplit], hfx, ?_⟩
      intro y hy
      rcases List.mem_cons.mp hy with hy | hy
      · subst hy; exact hfa
      · exact hnone y hy

theorem findIdx_append_cons_self {α : Type} [BEq α] [LawfulBEq α] (e : α)
    (l1 l2 : List α) (h : e ∉ l1) :
    List.findIdx (fun x => x == e) (l1 ++ e :: l2) = l1.length := by
  induction l1 with
  | nil => simp [List.findIdx_cons]
  | cons a l1 ih =>
    have ha : (a == e) = false := by
      simp only [beq_eq_false_iff_ne]
      intro hae
      exact h (by simp [hae])
    simp [List.findIdx_cons, ha, ih (fun hm => h (by simp [hm]))]

theorem mem_prefix_of_findIdx_lt {α : Type} [BEq α] [LawfulBEq α] (e : α)
    (l1 l2 : List α)
    (h : List.findIdx (fun x => x == e) (l1 ++ l2) < l1.length) : e ∈ l1 := by
  induction l1 with
  | nil => simp at h
  | cons a l1 ih =>
    cases ha : (a == e) with
    | true => simp [eq_of_beq ha]
    | false =>
      rw [List.cons_append, List.findIdx_cons, ha] at h
      simp only [cond_false, List.length_cons] at h
      exact List.mem_cons_of_mem a (ih (by omega))

/-- C7: behaviour of `find_matching_image`.  (1) A `PermissionError` from
the directory listing yields `none`.  (2) If no sibling's stem matches the
model stem case-insensitively, the result is `none`.  (3) A returned path
is the directory joined with a sibling whose stem matches
case-insensitively and whose (lowered) extension lies in the priority list
with minimal rank among all case-insensitive stem matches — independent of
the directory listing order, since any better-ranked match would have been
found in an earlier pass over the priority list.  (4) Completeness: when
some sibling stem-matches under an extension of the priority list, the
matcher does return a path — together with (3), it returns exactly a
best-priority match whenever one exists. -/
theorem find_matching_image_spec (env : MatchEnv) (mp : String) :
    (env.listdir (dirname mp) = Except.error () →
      find_matching_image env mp = none) ∧
    (∀ sibs, env.listdir (dirname mp) = Except.ok sibs →
      (∀ s ∈ sibs,
        stemMatches ⟨lowerStr (splitext (basename mp)).1⟩ s = false) →
      find_matching_image env mp = none) ∧
    (∀ sibs p, env.listdir (dirname mp) = Except.ok sibs →
      find_matching_image env mp = some p →
      ∃ s ∈ sibs, p = os_join (dirname mp) s ∧
        stemMatches ⟨lowerStr (splitext (basename mp)).1⟩ s = true ∧
        sibExt s ∈ priority_order ∧
        ∀ s' ∈ sibs,
          stemMatches ⟨lowerStr (splitext (basename mp)).1⟩ s' = true →
          extRank (sibExt s) ≤ extRank (sibExt s')) ∧
    (∀ sibs, env.listdir (dirname mp) = Except.ok sibs →
      (∃ s ∈ sibs,
        stemMatches ⟨lowerStr (splitext (basename mp)).1⟩ s = true ∧
        sibExt s ∈ priority_order) →
      ∃ p, find_matching_image env mp = some p) := by
  refine ⟨?_, ?_, ?_, ?_⟩
  · intro herr
    simp [find_matching_image, herr]
  · intro sibs hok hnostem
    simp only [find_matching_image, hok]
    rw [List.findSome?_eq_none_iff]
    intro ext _
    rw [Option.map_eq_none']
    rw [List.find?_eq_none]
    intro s hs
    simp [hnostem s hs]
  · intro sibs p hok hsome
    simp only [find_matching_image, hok] at hsome
    rcases findSome?_eq_some_split _ _ _ hsome with ⟨l1, ext, l2, hsplit, hfx, hnone⟩
    cases hfind : List.find?
        (fun sib => stemMatches ⟨lowerStr (splitext (basename mp)).1⟩ sib
          && (lowerStr (splitext sib).2 == ext.data)) sibs with
    | none => rw [hfind] at hfx; exact absurd hfx (by simp)
    | some sib =>
      rw [hfind] at hfx
      injection hfx with hp
      have hq := List.find?_some hfind
      have hmem := List.mem_of_find?_eq_some hfind
      rcases Bool.and_eq_true_iff.mp hq with ⟨hstem, hext⟩
      have hsibext : sibExt sib = ext := by
        have := eq_of_beq hext
        unfold sibExt
        rw [this]
      have hnodup : priority_order.Nodup := by decide
      rw [hsplit] at hnodup
      have hextnotmem : ext ∉ l1 := by
        rcases List.nodup_append.mp hnodup with ⟨-, -, hdisj⟩
        intro hmem1
        exact hdisj hmem1 (by simp)
      have hrank : extRank (sibExt sib) = l1.length := by
        rw [hsibext]
        unfold extRank
        rw [hsplit]
        exact findIdx_append_cons_self ext l1 l2 hextnotmem
      refine ⟨sib, hmem, hp.symm, hstem, ?_, ?_⟩
      · rw [hsibext, hsplit]; simp
      · intro s' hs' hstem'
        by_contra hcon
        push_neg at hcon
        rw [hrank] at hcon
        have he'mem : sibExt s' ∈ l1 := by
          apply mem_prefix_of_findIdx_lt (sibExt s') l1 (ext :: l2)
          unfold extRank at hcon
          rw [hsplit] at hcon
          exact hcon
        have hgnone := hnone (sibExt s') he'mem
        rw [Option.map_eq_none', List.find?_eq_none] at hgnone
        have := hgnone s' hs'
        apply this
        rw [hstem']
        simp [sibExt]
  · rintro sibs hok ⟨s, hs, hstem, hpri⟩
    cases hres : find_matching_image env mp with
    | some p => exact ⟨p, rfl⟩
    | none =>
      exfalso
      simp only [find_matching_image, hok] at hres
      have hall := List.findSome?_eq_none_iff.mp hres (sibExt s) hpri
      rw [Option.map_eq_none', List.find?_eq_none] at hall
      apply hall s hs
      rw [hstem]
      simp [sibExt]

/-- Witness for C7 at a concrete directory listing: for `/a/hero.fbx` among
`["hero.jpg", "hero.PNG", "other.png"]` the matcher returns
`/a/hero.PNG` — a case-insensitive stem match under `.png`, the
highest-priority extension present, even though the `.jpg` match comes
first in listing order — and the completeness part yields a match. -/
theorem find_matching_image_spec_witness :
    (∃ s ∈ ["hero.jpg", "hero.PNG", "other.png"],
      "/a/hero.PNG" = os_join (dirname "/a/hero.fbx") s ∧
      stemMatches ⟨lowerStr (splitext (basename "/a/hero.fbx")).1⟩ s = true ∧
      sibExt s ∈ priority_order ∧
      ∀ s' ∈ ["hero.jpg", "hero.PNG", "other.png"],
        stemMatches ⟨lowerStr (splitext (basename "/a/hero.fbx")).1⟩ s' = true →
        extRank (sibExt s) ≤ extRank (sibExt s')) ∧
    (∃ p, find_matching_image
        ⟨fun _ => Except.ok ["hero.jpg", "hero.PNG", "other.png"]⟩
        "/a/hero.fbx" = some p) := by
  constructor
  · exact (find_matching_image_spec
        ⟨fun _ => Except.ok ["hero.jpg", "hero.PNG", "other.png"]⟩
        "/a/hero.fbx").2.2.1
      ["hero.jpg", "hero.PNG", "other.png"] "/a/hero.PNG" rfl (by decide)
  · exact (find_matching_image_spec
        ⟨fun _ => Except.ok ["hero.jpg", "hero.PNG", "other.png"]⟩
        "/a/hero.fbx").2.2.2
      ["hero.jpg", "hero.PNG", "other.png"] rfl
      ⟨"hero.PNG", by decide, by decide, by decide⟩

/-! ## C3 -/

/-- With no stop callback the poll counter is irrelevant. -/
theorem reconcile_none_counter (env : ScanEnv) (store : Store) :
    ∀ (files : List String) (idx n m : Nat) (res : ScanResult)
      (batch : List AssetRecord),
      reconcile env store none files idx n res batch
        = reconcile env store none files idx m res batch := by
  intro files
  induction files with
  | nil => intro idx n m res batch; rfl
  | cons f rest ih =>
    intro idx n m res batch
    simp only [reconcile, checkStop]
    cases processFile env store f idx res.total_files with
    | error e => exact ih _ _ _ _ _
    | ok o =>
      cases o with
      | skipped => exact ih _ _ _ _ _
      | add isUpd tgen r => exact ih _ _ _ _ _

/-- A stop callback that first fires on the `k`-th poll makes the loop
process exactly the first `k - n` remaining files (the counter starting at
`n`): cancellation equals truncation of the work list. -/
theorem reconcile_stop_take (env : ScanEnv) (store : Store) (k : Nat) :
    ∀ (files : List String) (idx n : Nat) (res : ScanResult)
      (batch : List AssetRecord), n ≤ k →
      reconcile env store (some (fun m => decide (k ≤ m))) files idx n res batch
        = reconcile env store none (List.take (k - n) files) idx n res batch := by
  intro files
  induction files with
  | nil => intro idx n res batch _; simp [reconcile]
  | cons f rest ih =>
    intro idx n res batch hnk
    rcases Nat.eq_or_lt_of_le hnk with heq | hlt
    · subst heq
      have hz : n - n = 0 := by omega
      rw [hz, List.take_zero]
      simp [reconcile, checkStop]
    · have hdec : decide (k ≤ n) = false := by
        simp [Nat.not_le, hlt]
      have hsucc : k - n = (k - (n + 1)) + 1 := by omega
      rw [hsucc, List.take_succ_cons]
      simp only [reconcile, checkStop, hdec]
      cases hpf : processFile env store f idx res.total_files with
      | error e =>
        exact (ih _ (n + 1) _ _ hlt).trans
          (reconcile_none_counter env store _ _ _ _ _ _)
      | ok o =>
        cases o with
        | skipped =>
          exact (ih _ (n + 1) _ _ hlt).trans
            (reconcile_none_counter env store _ _ _ _ _ _)
        | add isUpd tgen r =>
          exact (ih _ (n + 1) _ _ hlt).trans
            (reconcile_none_counter env store _ _ _ _ _ _)

/-- When every per-file step succeeds, a full pass over `files` classifies
each of them exactly once and records no error. -/
theorem reconcile_counts (env : ScanEnv) (store : Store)
    (hok : ∀ f i t, ∃ o, processFile env store f i t = Except.ok o) :
    ∀ (files : List String) (idx n : Nat) (res : ScanResult)
      (batch : List AssetRecord),
      (reconcile env store none files idx n res batch).1.errors = res.errors ∧
      (reconcile env store none files idx n res batch).1.total_files
        = res.total_files ∧
      (reconcile env store none files idx n res batch).1.new_assets
          + (reconcile env store none files idx n res batch).1.updated_assets
          + (reconcile env store none files idx n res batch).1.skipped_assets
        = res.new_assets + res.updated_assets + res.skipped_assets
            + files.length := by
  intro files
  induction files with
  | nil => intro idx n res batch; simp [reconcile]
  | cons f rest ih =>
    intro idx n res batch
    rcases hok f idx res.total_files with ⟨o, hpf⟩
    simp only [reconcile, checkStop, hpf]
    cases o with
    | skipped =>
      rcases ih (idx + 1) n { res with skipped_assets := res.skipped_assets + 1 }
        batch with ⟨h1, h2, h3⟩
      refine ⟨by simpa using h1, by simpa using h2, ?_⟩
      simp at h3
      simp
      omega
    | add isUpd tgen r =>
      rcases ih (idx + 1) n (bumpClass (bumpThumb res tgen) isUpd)
        (batch ++ [r]) with ⟨h1, h2, h3⟩
      have hbe : (bumpClass (bumpThumb res tgen) isUpd).errors = res.errors := by
        cases tgen <;> cases isUpd <;> simp [bumpClass, bumpThumb]
      have hbt : (bumpClass (bumpThumb res tgen) isUpd).total_files
          = res.total_files := by
        cases tgen <;> cases isUpd <;> simp [bumpClass, bumpThumb]
      have hbs : (bumpClass (bumpThumb res tgen) isUpd).new_assets
            + (bumpClass (bumpThumb res tgen) isUpd).updated_assets
            + (bumpClass (bumpThumb res tgen) isUpd).skipped_assets
          = res.new_assets + res.updated_assets + res.skipped_assets + 1 := by
        cases tgen <;> cases isUpd <;> simp [bumpClass, bumpThumb] <;> omega
      refine ⟨by simpa [hbe] using h1, by simpa [hbt] using h2, ?_⟩
      simp
      omega

/-- C3: if the stop predicate first becomes true at the `k`-th per-file
poll (`k < N` collected files, non-recursive walk, all per-file steps
succeeding, commit succeeding), `scan_folder` returns normally — it is a
total function, no exception — with `total_files = N`, exactly `k` files
classified (hence strictly fewer than `N` classified as
new/updated/skipped), no error entries, and the batch accumulated over the
first `k` files still committed to the store. -/
theorem scan_cancellation (env : ScanEnv) (store : Store) (fp nm : String)
    (files : List String) (subs : List FSTree) (k : Nat)
    (hcommit : env.commitError = none)
    (hok : ∀ f i t, ∃ o, processFile env store f i t = Except.ok o)
    (hk : k < (List.map (os_join fp) (List.filter isModelFile files)).length) :
    ∃ res batch,
      reconcile env store none
          (List.take k (List.map (os_join fp) (List.filter isModelFile files)))
          0 0
          { total_files :=
              (List.map (os_join fp) (List.filter isModelFile files)).length }
          [] = (res, batch) ∧
      scan_folder env store fp (some (FSTree.node nm true files subs)) false
          (some (fun m => decide (k ≤ m)))
        = (res, upsert_assets_batch store batch) ∧
      res.total_files
        = (List.map (os_join fp) (List.filter isModelFile files)).length ∧
      res.errors = [] ∧
      res.new_assets + res.updated_assets + res.skipped_assets = k ∧
      res.new_assets + res.updated_assets + res.skipped_assets
        < res.total_files := by
  rcases hrb : reconcile env store none
      (List.take k (List.map (os_join fp) (List.filter isModelFile files))) 0 0
      { total_files :=
          (List.map (os_join fp) (List.filter isModelFile files)).length } []
    with ⟨res, batch⟩
  have hcounts := reconcile_counts env store hok
    (List.take k (List.map (os_join fp) (List.filter isModelFile files))) 0 0
    { total_files :=
        (List.map (os_join fp) (List.filter isModelFile files)).length } []
  rw [hrb] at hcounts
  rcases hcounts with ⟨he, ht, hs⟩
  have hlen : (List.take k
      (List.map (os_join fp) (List.filter isModelFile files))).length = k := by
    rw [List.length_take]
    omega
  have hsum : res.new_assets + res.updated_assets + res.skipped_assets = k := by
    simpa [hlen] using hs
  have htot : res.total_files
      = (List.map (os_join fp) (List.filter isModelFile files)).length := by
    simpa using ht
  refine ⟨res, batch, rfl, ?_, htot, by simpa using he, hsum, by omega⟩
  have hstop := reconcile_stop_take env store k
    (List.map (os_join fp) (List.filter isModelFile files)) 0 0
    { total_files :=
        (List.map (os_join fp) (List.filter isModelFile files)).length } []
    (Nat.zero_le k)
  rw [Nat.sub_zero, hrb] at hstop
  show scanCommit env store (some (fun m => decide (k ≤ m)))
      (List.map (os_join fp) (List.filter isModelFile files)) 0 = _
  unfold scanCommit
  rw [if_neg (by
    simp only [List.isEmpty_iff]
    intro hnil
    rw [hnil] at hk
    simp at hk)]
  rw [hstop]
  cases batch with
  | nil => simp [upsert_assets_batch]
  | cons b bs => simp [hcommit]

/-- Witness for C3: two collected files, stop after the first poll — one
file classified, total 2, and the singleton batch committed. -/
theorem scan_cancellation_witness :
    ∃ res batch,
      reconcile
          { progress_callback := none, stat := fun _ => Except.ok ⟨10, 5⟩,
            matchImage := fun _ => Except.ok none, genThumb := fun _ => none,
            genPlaceholder := fun _ => some "p.jpg", commitError := none }
          [] none
          (List.take 1 (List.map (os_join "/r")
            (List.filter isModelFile ["a.fbx", "b.fbx"]))) 0 0
          { total_files := (List.map (os_join "/r")
              (List.filter isModelFile ["a.fbx", "b.fbx"])).length } []
        = (res, batch) ∧
      scan_folder
          { progress_callback := none, stat := fun _ => Except.ok ⟨10, 5⟩,
            matchImage := fun _ => Except.ok none, genThumb := fun _ => none,
            genPlaceholder := fun _ => some "p.jpg", commitError := none }
          [] "/r" (some (FSTree.node "r" true ["a.fbx", "b.fbx"] [])) false
          (some (fun m => decide (1 ≤ m)))
        = (res, upsert_assets_batch [] batch) ∧
      res.total_files = (List.map (os_join "/r")
          (List.filter isModelFile ["a.fbx", "b.fbx"])).length ∧
      res.errors = [] ∧
      res.new_assets + res.updated_assets + res.skipped_assets = 1 ∧
      res.new_assets + res.updated_assets + res.skipped_assets
        < res.total_files := by
  exact scan_cancellation
    { progress_callback := none, stat := fun _ => Except.ok ⟨10, 5⟩,
      matchImage := fun _ => Except.ok none, genThumb := fun _ => none,
      genPlaceholder := fun _ => some "p.jpg", commitError := none }
    [] "/r" "r" ["a.fbx", "b.fbx"] [] 1 rfl
    (fun f i t => ⟨_, rfl⟩) (by decide)
